import Mathlib

/-!
Shallow embedding of the RLN FFI layer (src/ffi.rs) together with models of
the underlying RLN core operations. The FFI wrappers mirror the control flow
of the entry points in src/ffi.rs: each one calls an underlying operation,
returns false without writing any output on an error, and otherwise writes
its outputs and returns true. The core operations (key generation, hashing,
accumulator insertion, proof generation and verification) live outside the
provided sources, so they are modelled from the specification; each such
definition carries a doc comment saying so.
-/

namespace Rln

/-- Little-endian decomposition of a natural number into k bytes. -/
def natToBytesLE : Nat → Nat → List Nat
  | 0, _ => []
  | k + 1, v => v % 256 :: natToBytesLE k (v / 256)

/-- Little-endian recomposition of a byte list into a natural number. -/
def bytesToNatLE : List Nat → Nat
  | [] => 0
  | b :: bs => b + 256 * bytesToNatLE bs

/-- Modelled from the spec: the specification fixes no curve, only a prime
field of serialized elements; the code instantiates it with the Bn256 scalar
field, whose order is used here. -/
def fieldOrder : Nat :=
  21888242871839275222246405745257275088548364400416034343698204186575808495617

/-- Field of the RLN scheme. -/
abbrev F : Type := ZMod fieldOrder

instance : NeZero fieldOrder := ⟨by decide⟩

/-- Serialization of one field element as 32 little-endian bytes. -/
def fieldToBytesLE (x : F) : List Nat := natToBytesLE 32 x.val

/-- Deserialization of little-endian bytes into a field element. -/
def bytesToField (bs : List Nat) : F := (bytesToNatLE bs : F)

/-- Modelled from the spec: the error taxonomy of section 7. -/
inductive RlnError where
  | ParameterError
  | CapacityError
  | MembershipError
  | ProofFormatError
  | ProofGenerationError
  | BoundsError
  | EntropyError
  deriving DecidableEq

/-- Modelled from the spec: the algebraic hasher (Poseidon in the code, whose
source is not part of the layer under verification) is a deterministic,
order-sensitive map from a list of field elements to one field element; this
executable stand-in has those properties. -/
def Hasher (xs : List F) : F :=
  xs.foldl (fun acc x => acc * 31 + x + 1) 1

/-- Modelled from the spec: a context owns the tree depth, the declared
self-slot index and the accumulator leaves (the contiguous filled prefix). -/
structure RLNCtx where
  depth : Nat
  index : Nat
  leaves : List F
  deriving DecidableEq

/-- One level of the binary Merkle tree: hash adjacent pairs. -/
def hashLevel : List F → List F
  | a :: b :: rest => Hasher [a, b] :: hashLevel rest
  | [a] => [Hasher [a, 0]]
  | [] => []

/-- Root of a Merkle tree of the given depth over the given level. -/
def rootOfLevel : Nat → List F → F
  | 0, ls => ls.headD 0
  | d + 1, ls => rootOfLevel d (hashLevel ls)

/-- Pad the filled prefix with the empty-leaf sentinel up to capacity. -/
def padLeaves (d : Nat) (ls : List F) : List F :=
  ls ++ List.replicate (2 ^ d - ls.length) 0

/-- Modelled from the spec: the accumulator root is a deterministic function
of the full leaf sequence. -/
def ctxRoot (ctx : RLNCtx) : F :=
  rootOfLevel ctx.depth (padLeaves ctx.depth ctx.leaves)

/-- Read n serialized field elements from a byte buffer; modelled from the
spec: BoundsError when fewer than n elements are available. -/
def readElements (bs : List Nat) (n : Nat) : Except RlnError (List F) :=
  if bs.length < 32 * n then .error .BoundsError
  else .ok ((List.range n).map (fun i => bytesToField ((bs.drop (32 * i)).take 32)))

/-- Modelled from the spec: a signal is the triple epoch, message digest and
secret key, serialized in that order. -/
structure RLNSignal where
  epoch : F
  hash : F
  id_key : F
  deriving DecidableEq

/-- Modelled from the spec: binary layout signal = epoch then digest then
secret, one field element each. -/
def parseSignal (bs : List Nat) : Except RlnError RLNSignal :=
  (readElements bs 3).map
    (fun es => ⟨es.headD 0, (es.drop 1).headD 0, (es.drop 2).headD 0⟩)

/-- Modelled from the spec: a proof declares its public inputs, in particular
the root it was produced against, next to the opaque argument; argOk
abstracts whether the zero-knowledge argument checks out against the
verifying key and the declared public inputs. -/
structure ProofData where
  root : F
  argOk : Bool
  deriving DecidableEq

/-- Modelled from the spec: proof bytes are the opaque argument followed by
the declared public inputs. -/
def serializeProof (p : ProofData) : List Nat :=
  (if p.argOk then 1 else 0) :: fieldToBytesLE p.root

/-- Parse proof bytes back into proof data; none models malformed bytes. -/
def parseProof (bs : List Nat) : Option ProofData :=
  match bs with
  | [] => none
  | b :: rest => if rest.length = 32 then some ⟨bytesToField rest, b == 1⟩ else none

/-- Modelled from the spec: parameter blobs are validated only for depth
compatibility; ParameterError on mismatch or malformed bytes. The blob is
modelled as declaring its depth in its head byte. -/
def paramsDepth (params : List Nat) : Option Nat := params.head?

/-- Modelled from the spec: context creation validates the depth against the
parameter blob and produces a context with an empty accumulator. -/
def new_with_raw_params (merkle_depth index : Nat) (params : List Nat) :
    Except RlnError RLNCtx :=
  match paramsDepth params with
  | some d =>
    if d = merkle_depth then .ok ⟨merkle_depth, index, []⟩
    else .error .ParameterError
  | none => .error .ParameterError

/-- Modelled from the spec: insert at the first empty slot; CapacityError
when no empty slot remains, leaving the accumulator unchanged. -/
def rlnUpdateNext (ctx : RLNCtx) (leaf : F) : Except RlnError RLNCtx :=
  if ctx.leaves.length < 2 ^ ctx.depth then
    .ok ⟨ctx.depth, ctx.index, ctx.leaves ++ [leaf]⟩
  else .error .CapacityError

/-- Byte-level insertion: deserialize one commitment, then insert it. -/
def rlnUpdateNextBytes (ctx : RLNCtx) (input : List Nat) : Except RlnError RLNCtx :=
  (readElements input 1).bind (fun es => rlnUpdateNext ctx (es.headD 0))

/-- Modelled from the spec: proof generation requires Hasher(secret) to equal
some leaf currently in the accumulator, failing with MembershipError
otherwise, and produces a proof declaring the current root together with a
valid argument. -/
def rlnGenerateProof (ctx : RLNCtx) (sig : RLNSignal) : Except RlnError ProofData :=
  if Hasher [sig.id_key] ∈ ctx.leaves then .ok ⟨ctxRoot ctx, true⟩
  else .error .MembershipError

/-- Byte-level proof generation: parse the signal, prove, serialize. -/
def rlnGenerateProofBytes (ctx : RLNCtx) (input : List Nat) :
    Except RlnError (List Nat) :=
  (parseSignal input).bind
    (fun sig => (rlnGenerateProof ctx sig).map serializeProof)

/-- Modelled from the spec: verification parses the proof bytes, failing with
ProofFormatError when they are malformed, and accepts exactly when the
argument is valid and the declared root equals the stored root. -/
def rlnVerify (root : F) (bs : List Nat) : Except RlnError Bool :=
  match parseProof bs with
  | none => .error .ProofFormatError
  | some p => .ok (p.argOk && p.root == root)

/-- Modelled from the spec: hash reads n field elements from the input,
failing with BoundsError when fewer are available, and returns the
serialized Hasher output; a pure function of its inputs. -/
def rlnHash (bs : List Nat) (n : Nat) : Except RlnError (List Nat) :=
  (readElements bs n).map (fun es => fieldToBytesLE (Hasher es))

/-- Modelled from the spec: key generation draws a random secret, failing
with EntropyError exactly when the randomness source fails (modelled by the
argument being none), and outputs secret then Hasher(secret). -/
def rlnKeyGen (rand : Option F) : Except RlnError (List Nat) :=
  match rand with
  | none => .error .EntropyError
  | some s => .ok (fieldToBytesLE s ++ fieldToBytesLE (Hasher [s]))

/-- Buffer struct of src/ffi.rs: a pointer-length view of bytes, modelled by
the byte sequence it denotes. -/
structure Buffer where
  bytes : List Nat
  deriving DecidableEq

/-- Embedding of the slice-to-Buffer conversion of src/ffi.rs (lines 15-22):
the conversion takes the address of element 0 of the slice, which panics
with an out-of-bounds index on the empty slice; none models that panic. -/
def bufferFromSlice (src : List Nat) : Option Buffer :=
  if src = [] then none else some ⟨src⟩

/-- Common output path of generate_proof, hash and key_gen in src/ffi.rs: an
underlying error returns false without writing the output buffer; a
successful output byte vector is converted to a Buffer, which panics (none)
when the vector is empty, and written next to a true return. -/
def ffiOutput (res : Except RlnError (List Nat)) : Option (Bool × Option Buffer) :=
  match res with
  | .error _ => some (false, none)
  | .ok out =>
    match bufferFromSlice out with
    | none => none
    | some b => some (true, some b)

/-- Embedding of new_circuit_from_params (src/ffi.rs lines 30-44): the
context handle is written only when the underlying construction succeeds. -/
def new_circuit_from_params (merkle_depth index : Nat) (parameters : List Nat) :
    Bool × Option RLNCtx :=
  match new_with_raw_params merkle_depth index parameters with
  | .error _ => (false, none)
  | .ok rln => (true, some rln)

/-- Embedding of update_next (src/ffi.rs lines 46-55): on an underlying
error the call returns false and the context keeps its previous state. -/
def update_next (ctx : RLNCtx) (input : List Nat) : Bool × RLNCtx :=
  match rlnUpdateNextBytes ctx input with
  | .error _ => (false, ctx)
  | .ok ctx' => (true, ctx')

/-- Embedding of generate_proof (src/ffi.rs lines 57-73): underlying error
returns false with the output buffer unwritten; a successful proof byte
vector is written through the Buffer conversion. -/
def generate_proof (ctx : RLNCtx) (input : List Nat) :
    Option (Bool × Option Buffer) :=
  ffiOutput (rlnGenerateProofBytes ctx input)

/-- Embedding of verify (src/ffi.rs lines 75-92): result code 0 is written
on accept and 1 on reject before returning true; an underlying error
returns false with the result code unwritten. The context is read through a
shared reference, returned here unchanged. -/
def verify (ctx : RLNCtx) (proof : List Nat) : Bool × RLNCtx × Option Nat :=
  match rlnVerify (ctxRoot ctx) proof with
  | .error _ => (false, ctx, none)
  | .ok true => (true, ctx, some 0)
  | .ok false => (true, ctx, some 1)

/-- Embedding of hash (src/ffi.rs lines 94-112): the element count is read
through the input_len pointer; underlying error returns false with the
output unwritten. The context is read through a shared reference, returned
here unchanged. -/
def hash (ctx : RLNCtx) (inputs : List Nat) (input_len : Nat) :
    Option (Bool × RLNCtx × Option Buffer) :=
  match ffiOutput (rlnHash inputs input_len) with
  | none => none
  | some (b, out) => some (b, ctx, out)

/-- Embedding of key_gen (src/ffi.rs lines 114-125): the keypair buffer is
written only on success. -/
def key_gen (ctx : RLNCtx) (rand : Option F) : Option (Bool × Option Buffer) :=
  ffiOutput (rlnKeyGen rand)

/-- Iterate update_next over a list of commitments, recording each boolean
result and the final context. -/
def insertAllF (ctx : RLNCtx) (cs : List F) : List Bool × RLNCtx :=
  match cs with
  | [] => ([], ctx)
  | c :: rest =>
    let step := update_next ctx (fieldToBytesLE c)
    let restRes := insertAllF step.2 rest
    (step.1 :: restRes.1, restRes.2)

theorem natToBytesLE_length (k v : Nat) : (natToBytesLE k v).length = k := by
  induction k generalizing v with
  | zero => rfl
  | succ k ih => simp [natToBytesLE, ih]

theorem bytesToNatLE_natToBytesLE (k v : Nat) :
    bytesToNatLE (natToBytesLE k v) = v % 256 ^ k := by
  induction k generalizing v with
  | zero => simp [natToBytesLE, bytesToNatLE, Nat.mod_one]
  | succ k ih =>
    simp only [natToBytesLE, bytesToNatLE, ih]
    rw [pow_succ', Nat.mod_mul]

theorem fieldToBytesLE_length (x : F) : (fieldToBytesLE x).length = 32 :=
  natToBytesLE_length 32 x.val

theorem bytesToField_fieldToBytesLE (x : F) : bytesToField (fieldToBytesLE x) = x := by
  unfold bytesToField fieldToBytesLE
  rw [bytesToNatLE_natToBytesLE,
    Nat.mod_eq_of_lt (lt_trans (ZMod.val_lt x) (by decide))]
  exact ZMod.natCast_rightInverse x

theorem readElements_single (c : F) :
    readElements (fieldToBytesLE c) 1 = .ok [c] := by
  have hlen : (fieldToBytesLE c).length = 32 := fieldToBytesLE_length c
  have h32 : ¬ ((fieldToBytesLE c).length < 32 * 1) := by rw [hlen]; omega
  unfold readElements
  rw [if_neg h32]
  simp [List.range_succ, List.take_of_length_le (le_of_eq hlen),
    bytesToField_fieldToBytesLE]

theorem parseProof_serializeProof (p : ProofData) :
    parseProof (serializeProof p) = some p := by
  unfold parseProof serializeProof
  cases p with
  | mk root argOk =>
    cases argOk <;>
      simp [fieldToBytesLE_length, bytesToField_fieldToBytesLE]

theorem insertAllF_full (cs : List F) : ∀ ctx : RLNCtx,
    ctx.leaves.length + cs.length ≤ 2 ^ ctx.depth →
    (insertAllF ctx cs).1 = List.replicate cs.length true ∧
    (insertAllF ctx cs).2 = ⟨ctx.depth, ctx.index, ctx.leaves ++ cs⟩ := by
  induction cs with
  | nil =>
    intro ctx h
    exact ⟨rfl, by simp [insertAllF]⟩
  | cons c rest ih =>
    intro ctx h
    have hlt : ctx.leaves.length < 2 ^ ctx.depth := by
      simp only [List.length_cons] at h
      omega
    have hstep : update_next ctx (fieldToBytesLE c) =
        (true, ⟨ctx.depth, ctx.index, ctx.leaves ++ [c]⟩) := by
      simp [update_next, rlnUpdateNextBytes, readElements_single, rlnUpdateNext,
        hlt, Except.bind]
    obtain ⟨ih1, ih2⟩ := ih ⟨ctx.depth, ctx.index, ctx.leaves ++ [c]⟩ (by
      simp only [List.length_append, List.length_singleton]
      simp only [List.length_cons] at h
      omega)
    constructor
    · simp only [insertAllF, hstep, ih1, List.length_cons, List.replicate_succ]
    · simp only [insertAllF, hstep, ih2]
      simp [List.append_assoc]

theorem generate_proof_shape (ctx : RLNCtx) (input : List Nat) (buf : Buffer)
    (h : generate_proof ctx input = some (true, some buf)) :
    buf.bytes = serializeProof ⟨ctxRoot ctx, true⟩ := by
  unfold generate_proof rlnGenerateProofBytes at h
  cases hp : parseSignal input with
  | error e =>
    rw [hp] at h
    simp [Except.bind, ffiOutput] at h
  | ok sig =>
    rw [hp] at h
    by_cases hm : Hasher [sig.id_key] ∈ ctx.leaves
    · simp [rlnGenerateProof, hm, Except.bind, Except.map, ffiOutput,
        bufferFromSlice, serializeProof] at h
      simp [serializeProof, ← h]
    · simp [rlnGenerateProof, hm, Except.bind, Except.map, ffiOutput] at h

/-- C2: a proof generated against the context's current root and accepted by
verify is rejected (result code 1, boolean true) when re-verified after a
successful insertion has changed the stored root. -/
theorem root_binding (ctx ctx' : RLNCtx) (input newLeaf : List Nat) (buf : Buffer)
    (hgen : generate_proof ctx input = some (true, some buf))
    (hacc : verify ctx buf.bytes = (true, ctx, some 0))
    (hupd : update_next ctx newLeaf = (true, ctx'))
    (hroot : ctxRoot ctx' ≠ ctxRoot ctx) :
    verify ctx' buf.bytes = (true, ctx', some 1) := by
  have hb := generate_proof_shape ctx input buf hgen
  have hbeq : (ctxRoot ctx == ctxRoot ctx') = false := by
    rw [beq_eq_false_iff_ne]
    exact fun hh => hroot hh.symm
  have hv : rlnVerify (ctxRoot ctx') buf.bytes = .ok false := by
    rw [hb]
    unfold rlnVerify
    rw [parseProof_serializeProof]
    simp [hbeq]
  unfold verify
  rw [hv]

/-- Witness for C2: a concrete depth-1 context with one member, a proof for
that member, and an insertion changing the root; the original proof is then
rejected with result code 1. -/
theorem root_binding_witness :
    verify ⟨1, 0, [Hasher [5], 7]⟩
      (Buffer.bytes ⟨serializeProof ⟨ctxRoot ⟨1, 0, [Hasher [5]]⟩, true⟩⟩) =
      (true, ⟨1, 0, [Hasher [5], 7]⟩, some 1) :=
  root_binding ⟨1, 0, [Hasher [5]]⟩ ⟨1, 0, [Hasher [5], 7]⟩
    (fieldToBytesLE 2 ++ (fieldToBytesLE 3 ++ fieldToBytesLE 5))
    (fieldToBytesLE 7)
    ⟨serializeProof ⟨ctxRoot ⟨1, 0, [Hasher [5]]⟩, true⟩⟩
    (by rfl) (by rfl) (by rfl) (by decide)

/-- C3: when the secret's public commitment Hasher(secret) equals no leaf of
the accumulator, the underlying call yields MembershipError, the
generate_proof entry point returns false and the output proof buffer is
left unwritten. -/
theorem nonmember_no_proof (ctx : RLNCtx) (input : List Nat) (sig : RLNSignal)
    (hparse : parseSignal input = .ok sig)
    (hmem : Hasher [sig.id_key] ∉ ctx.leaves) :
    rlnGenerateProof ctx sig = .error .MembershipError ∧
    generate_proof ctx input = some (false, none) := by
  have h1 : rlnGenerateProof ctx sig = .error .MembershipError := by
    simp [rlnGenerateProof, hmem]
  have h2 : rlnGenerateProofBytes ctx input = .error .MembershipError := by
    simp [rlnGenerateProofBytes, hparse, h1, Except.bind, Except.map]
  exact ⟨h1, by simp [generate_proof, h2, ffiOutput]⟩

/-- Witness for C3: a signal whose secret commits to no leaf of a concrete
one-member context fails proof generation without writing output. -/
theorem nonmember_no_proof_witness :
    rlnGenerateProof ⟨1, 0, [Hasher [9]]⟩ ⟨2, 3, 5⟩ = .error .MembershipError ∧
    generate_proof ⟨1, 0, [Hasher [9]]⟩
      (fieldToBytesLE 2 ++ (fieldToBytesLE 3 ++ fieldToBytesLE 5)) =
      some (false, none) :=
  nonmember_no_proof ⟨1, 0, [Hasher [9]]⟩
    (fieldToBytesLE 2 ++ (fieldToBytesLE 3 ++ fieldToBytesLE 5)) ⟨2, 3, 5⟩
    (by rfl) (by decide)

/-- C4: from a fresh context of depth D, exactly 2^D insertions all succeed,
the next insertion fails through CapacityError, and the failed call leaves
the leaf array and the root exactly as they were. -/
theorem capacity_exhaustion (d i : Nat) (cs : List F) (c : F)
    (h : cs.length = 2 ^ d) :
    (insertAllF ⟨d, i, []⟩ cs).1 = List.replicate (2 ^ d) true ∧
    rlnUpdateNext (insertAllF ⟨d, i, []⟩ cs).2 c = .error .CapacityError ∧
    update_next (insertAllF ⟨d, i, []⟩ cs).2 (fieldToBytesLE c) =
      (false, (insertAllF ⟨d, i, []⟩ cs).2) ∧
    (update_next (insertAllF ⟨d, i, []⟩ cs).2 (fieldToBytesLE c)).2.leaves =
      (insertAllF ⟨d, i, []⟩ cs).2.leaves ∧
    ctxRoot (update_next (insertAllF ⟨d, i, []⟩ cs).2 (fieldToBytesLE c)).2 =
      ctxRoot (insertAllF ⟨d, i, []⟩ cs).2 := by
  obtain ⟨h1, h2⟩ := insertAllF_full cs ⟨d, i, []⟩ (by simp [h])
  have hfull : rlnUpdateNext (insertAllF ⟨d, i, []⟩ cs).2 c = .error .CapacityError := by
    rw [h2]
    simp [rlnUpdateNext, h]
  have hupd : update_next (insertAllF ⟨d, i, []⟩ cs).2 (fieldToBytesLE c) =
      (false, (insertAllF ⟨d, i, []⟩ cs).2) := by
    simp [update_next, rlnUpdateNextBytes, readElements_single, Except.bind, hfull]
  refine ⟨by rw [h1, h], hfull, hupd, by rw [hupd], by rw [hupd]⟩

/-- Witness for C4: a depth-1 context filled by two successful insertions
rejects a third through CapacityError, leaving leaves and root unchanged. -/
theorem capacity_exhaustion_witness :
    (insertAllF ⟨1, 0, []⟩ [0, 1]).1 = List.replicate (2 ^ 1) true ∧
    rlnUpdateNext (insertAllF ⟨1, 0, []⟩ [0, 1]).2 2 = .error .CapacityError ∧
    update_next (insertAllF ⟨1, 0, []⟩ [0, 1]).2 (fieldToBytesLE 2) =
      (false, (insertAllF ⟨1, 0, []⟩ [0, 1]).2) ∧
    (update_next (insertAllF ⟨1, 0, []⟩ [0, 1]).2 (fieldToBytesLE 2)).2.leaves =
      (insertAllF ⟨1, 0, []⟩ [0, 1]).2.leaves ∧
    ctxRoot (update_next (insertAllF ⟨1, 0, []⟩ [0, 1]).2 (fieldToBytesLE 2)).2 =
      ctxRoot (insertAllF ⟨1, 0, []⟩ [0, 1]).2 :=
  capacity_exhaustion 1 0 [0, 1] 2 (by decide)

/-- C6: whenever verify returns true it has written result code 0 on accept
or 1 on reject and nothing else, while malformed proof bytes make it return
false with the result code unwritten. -/
theorem verify_result_binary (ctx : RLNCtx) (bs : List Nat) :
    (∀ st c, verify ctx bs = (true, st, c) → c = some 0 ∨ c = some 1) ∧
    (rlnVerify (ctxRoot ctx) bs = .ok true → verify ctx bs = (true, ctx, some 0)) ∧
    (rlnVerify (ctxRoot ctx) bs = .ok false → verify ctx bs = (true, ctx, some 1)) ∧
    (∀ e, rlnVerify (ctxRoot ctx) bs = .error e → verify ctx bs = (false, ctx, none)) ∧
    (parseProof bs = none → verify ctx bs = (false, ctx, none)) := by
  refine ⟨?_, ?_, ?_, ?_, ?_⟩
  · intro st c h
    unfold verify at h
    cases hv : rlnVerify (ctxRoot ctx) bs with
    | error e =>
      rw [hv] at h
      simp at h
    | ok b =>
      rw [hv] at h
      cases b with
      | false =>
        right
        have h' : ((true, ctx, some 1) : Bool × RLNCtx × Option Nat) = (true, st, c) := h
        have := congrArg (fun t : Bool × RLNCtx × Option Nat => t.2.2) h'
        simpa using this.symm
      | true =>
        left
        have h' : ((true, ctx, some 0) : Bool × RLNCtx × Option Nat) = (true, st, c) := h
        have := congrArg (fun t : Bool × RLNCtx × Option Nat => t.2.2) h'
        simpa using this.symm
  · intro h
    unfold verify
    rw [h]
  · intro h
    unfold verify
    rw [h]
  · intro e h
    unfold verify
    rw [h]
  · intro h
    have he : rlnVerify (ctxRoot ctx) bs = .error .ProofFormatError := by
      unfold rlnVerify
      rw [h]
    unfold verify
    rw [he]

/-- Witness for C6: a well-formed accepting proof yields result code 0 with
a true return, and malformed (empty) bytes yield false with nothing
written. -/
theorem verify_result_binary_witness :
    verify ⟨1, 0, []⟩ (serializeProof ⟨ctxRoot ⟨1, 0, []⟩, true⟩) =
      (true, ⟨1, 0, []⟩, some 0) ∧
    verify ⟨1, 0, []⟩ [] = (false, ⟨1, 0, []⟩, none) :=
  ⟨(verify_result_binary ⟨1, 0, []⟩
      (serializeProof ⟨ctxRoot ⟨1, 0, []⟩, true⟩)).2.1 (by rfl),
   (verify_result_binary ⟨1, 0, []⟩ []).2.2.2.2 (by rfl)⟩

/-- C1: every keypair produced by the key_gen entry point is written as
exactly two little-endian field elements, the secret followed by the public
one, and the public element equals the single-input Hasher applied to the
secret element. -/
theorem keygen_layout (ctx : RLNCtx) (s : F) :
    ∃ buf : Buffer,
      key_gen ctx (some s) = some (true, some buf) ∧
      buf.bytes.length = 64 ∧
      buf.bytes.take 32 = fieldToBytesLE s ∧
      buf.bytes.drop 32 = fieldToBytesLE (Hasher [s]) ∧
      bytesToField (buf.bytes.drop 32) = Hasher [bytesToField (buf.bytes.take 32)] := by
  have hne : fieldToBytesLE s ++ fieldToBytesLE (Hasher [s]) ≠ [] := by
    intro h
    have hl := congrArg List.length h
    simp [fieldToBytesLE_length] at hl
  refine ⟨⟨fieldToBytesLE s ++ fieldToBytesLE (Hasher [s])⟩, ?_, ?_, ?_, ?_, ?_⟩
  · simp [key_gen, rlnKeyGen, ffiOutput, bufferFromSlice, hne]
  · simp [fieldToBytesLE_length]
  · rw [← fieldToBytesLE_length s]
    exact List.take_left _ _
  · rw [← fieldToBytesLE_length s]
    exact List.drop_left _ _
  · rw [← fieldToBytesLE_length s, List.take_left, List.drop_left,
      bytesToField_fieldToBytesLE, bytesToField_fieldToBytesLE]

/-- C5: every FFI entry point, on any input where the underlying operation
returns an error, returns false and writes none of its output parameters:
the context handle, the output buffer and the result-code slot are left
untouched, and an in-place context keeps its previous state. -/
theorem ffi_error_silent (e : RlnError) :
    (∀ d i ps, new_with_raw_params d i ps = .error e →
      new_circuit_from_params d i ps = (false, none)) ∧
    (∀ ctx input, rlnUpdateNextBytes ctx input = .error e →
      update_next ctx input = (false, ctx)) ∧
    (∀ ctx input, rlnGenerateProofBytes ctx input = .error e →
      generate_proof ctx input = some (false, none)) ∧
    (∀ ctx proof, rlnVerify (ctxRoot ctx) proof = .error e →
      verify ctx proof = (false, ctx, none)) ∧
    (∀ ctx input n, rlnHash input n = .error e →
      hash ctx input n = some (false, ctx, none)) ∧
    (∀ ctx rand, rlnKeyGen rand = .error e →
      key_gen ctx rand = some (false, none)) := by
  refine ⟨fun d i ps h => ?_, fun ctx input h => ?_, fun ctx input h => ?_,
    fun ctx proof h => ?_, fun ctx input n h => ?_, fun ctx rand h => ?_⟩
  · simp [new_circuit_from_params, h]
  · simp [update_next, h]
  · simp [generate_proof, h, ffiOutput]
  · simp [verify, h]
  · simp [hash, h, ffiOutput]
  · simp [key_gen, h, ffiOutput]

/-- Witness for C5: each entry point evaluated on a concrete erroring
input returns false with every output parameter unwritten. -/
theorem ffi_error_silent_witness :
    new_circuit_from_params 3 2 [] = (false, none) ∧
    update_next ⟨1, 0, []⟩ [] = (false, ⟨1, 0, []⟩) ∧
    generate_proof ⟨1, 0, []⟩ [] = some (false, none) ∧
    verify ⟨1, 0, []⟩ [] = (false, ⟨1, 0, []⟩, none) ∧
    hash ⟨1, 0, []⟩ [] 1 = some (false, ⟨1, 0, []⟩, none) ∧
    key_gen ⟨1, 0, []⟩ none = some (false, none) :=
  ⟨(ffi_error_silent .ParameterError).1 3 2 [] rfl,
   (ffi_error_silent .BoundsError).2.1 ⟨1, 0, []⟩ [] rfl,
   (ffi_error_silent .BoundsError).2.2.1 ⟨1, 0, []⟩ [] rfl,
   (ffi_error_silent .ProofFormatError).2.2.2.1 ⟨1, 0, []⟩ [] rfl,
   (ffi_error_silent .BoundsError).2.2.2.2.1 ⟨1, 0, []⟩ [] 1 rfl,
   (ffi_error_silent .EntropyError).2.2.2.2.2 ⟨1, 0, []⟩ none rfl⟩

/-- C7: whenever the input buffer holds fewer bytes than the n serialized
field elements require, the underlying hash yields BoundsError and the hash
entry point returns false with the output buffer unwritten. -/
theorem hash_bounds_error (ctx : RLNCtx) (input : List Nat) (n : Nat)
    (h : input.length < 32 * n) :
    rlnHash input n = .error .BoundsError ∧
    hash ctx input n = some (false, ctx, none) := by
  have h1 : rlnHash input n = .error .BoundsError := by
    simp [rlnHash, readElements, h, Except.map]
  exact ⟨h1, by simp [hash, h1, ffiOutput]⟩

/-- Witness for C7: an empty input with element count 1 makes hash fail
without writing its output. -/
theorem hash_bounds_error_witness :
    rlnHash [] 1 = .error .BoundsError ∧
    hash ⟨1, 0, []⟩ [] 1 = some (false, ⟨1, 0, []⟩, none) :=
  hash_bounds_error ⟨1, 0, []⟩ [] 1 (by decide)

/-- C8: the hash entry point is deterministic and side-effect-free:
byte-identical inputs with equal element count produce identical results,
and every call leaves the context exactly as it was. -/
theorem hash_pure (ctx : RLNCtx) (bs₁ bs₂ : List Nat) (n : Nat) (h : bs₁ = bs₂) :
    hash ctx bs₁ n = hash ctx bs₂ n ∧
    hash ctx bs₁ n = Option.map (fun p => (p.1, ctx, p.2.2)) (hash ctx bs₁ n) := by
  subst h
  refine ⟨rfl, ?_⟩
  unfold hash
  cases hf : ffiOutput (rlnHash bs₁ n) with
  | none => rfl
  | some p =>
    obtain ⟨b, out⟩ := p
    rfl

/-- Witness for C8: two calls of hash on the same concrete two-element
input agree and leave the context unchanged. -/
theorem hash_pure_witness :
    hash ⟨1, 0, []⟩ (fieldToBytesLE 1 ++ fieldToBytesLE 2) 2 =
      hash ⟨1, 0, []⟩ (fieldToBytesLE 1 ++ fieldToBytesLE 2) 2 ∧
    hash ⟨1, 0, []⟩ (fieldToBytesLE 1 ++ fieldToBytesLE 2) 2 =
      Option.map (fun p => (p.1, (⟨1, 0, []⟩ : RLNCtx), p.2.2))
        (hash ⟨1, 0, []⟩ (fieldToBytesLE 1 ++ fieldToBytesLE 2) 2) :=
  hash_pure ⟨1, 0, []⟩ (fieldToBytesLE 1 ++ fieldToBytesLE 2)
    (fieldToBytesLE 1 ++ fieldToBytesLE 2) 2 rfl

/-- C9: the verify entry point never mutates the context: depth, leaves and
root are identical before and after the call, whatever it returns. -/
theorem verify_no_mutation (ctx : RLNCtx) (proof : List Nat) :
    (verify ctx proof).2.1 = ctx ∧
    (verify ctx proof).2.1.leaves = ctx.leaves ∧
    (verify ctx proof).2.1.depth = ctx.depth ∧
    ctxRoot (verify ctx proof).2.1 = ctxRoot ctx := by
  have h : (verify ctx proof).2.1 = ctx := by
    unfold verify
    cases rlnVerify (ctxRoot ctx) proof with
    | error e => rfl
    | ok b => cases b <;> rfl
  exact ⟨h, by rw [h], by rw [h], by rw [h]⟩

/-- C10: the slice-to-Buffer conversion indexes element 0 of the slice, so
it panics on the empty slice instead of producing a degenerate buffer or
failing; consequently the shared output path of the entry points panics,
rather than returning false, when a successful output byte vector is
empty. -/
theorem buffer_from_empty_panics :
    bufferFromSlice [] = none ∧
    (∀ b rest, bufferFromSlice (b :: rest) = some ⟨b :: rest⟩) ∧
    ffiOutput (.ok []) = none :=
  ⟨rfl, fun b rest => by simp [bufferFromSlice], rfl⟩

end Rln
